import Mathlib

/-!
Shallow embedding of the bagua repository's communication and
fused-optimizer modules (`bagua/torch_api/communication.py`,
`bagua/torch_api/fuse_optimizer.py`), with theorems checking the
natural-language specification against the code.

Machine integers (storage pointers, offsets, element counts, ranks) are
modelled as `Nat`; tensor element values as `ℚ` so that the local
averaging division is exact.  Python exceptions are modelled by an
explicit error type, state mutation by explicit state passing.
-/

namespace Bagua

/-! ## Fused optimizer (`fuse_optimizer.py`) -/

/-- A parameter tensor as seen by `fuse_optimizer.py`: the identity of its
data storage allocation (`p.data.storage().data_ptr()`), its data storage
offset (`p.data.storage_offset()`), its gradient's storage offset
(`p.grad.data.storage_offset()`), its element count (`p.numel()`), and the
optional `bagua_tensor` attribute carrying `num_elem_allocated()`. -/
structure Param where
  ptr : Nat
  offset : Nat
  gradOffset : Nat
  numel : Nat
  hasBagua : Bool := false
  baguaAlloc : Nat := 0
deriving DecidableEq, Repr

instance : Inhabited Param := ⟨⟨0, 0, 0, 0, false, 0⟩⟩

/-- Source: `a.bagua_tensor.num_elem_allocated() if hasattr(a, "bagua_tensor") else
a.numel()` — the allocated element count used by `is_contiguous_param`. -/
def allocSize (p : Param) : Nat :=
  if p.hasBagua then p.baguaAlloc else p.numel

/-- Source `is_contiguous_param(a, b)` from `fuse_optimizer.py`: true when `a`
starts exactly where `b`'s allocation ends, for both the data and the
gradient buffers — or symmetrically with the roles of `a` and `b`
exchanged (the source tests both orientations with an `or`). -/
def is_contiguous_param (a b : Param) : Bool :=
  (decide (a.offset = b.offset + allocSize b)
    && decide (a.gradOffset = b.gradOffset + allocSize b))
  || (decide (b.offset = a.offset + allocSize a)
    && decide (b.gradOffset = a.gradOffset + allocSize a))

/-- The contiguity condition exactly as the spec words it (one direction
only): the later parameter `a` starts where the earlier parameter `b`'s
allocation ends, for data and gradient alike.  Kept separate from
`is_contiguous_param` so the two can be compared. -/
def spec_contiguous (later earlier : Param) : Bool :=
  decide (later.offset = earlier.offset + allocSize earlier)
    && decide (later.gradOffset = earlier.gradOffset + allocSize earlier)

instance : IsTotal Param (fun a b => a.offset ≤ b.offset) :=
  ⟨fun a b => Nat.le_total a.offset b.offset⟩

instance : IsTrans Param (fun a b => a.offset ≤ b.offset) :=
  ⟨fun _ _ _ => Nat.le_trans⟩

/-- Source `sorted(params, key=lambda x: x.storage_offset())`: Python's `sorted`
is a stable sort, and a stable sort by a key is extensionally unique, so
stable insertion sort by the storage offset is the same function. -/
def sortParams (params : List Param) : List Param :=
  List.insertionSort (fun a b => a.offset ≤ b.offset) params

/-- The scan loop of `reorder_params`: walk the sorted tail, `last` being
the most recently appended parameter (`tmp_params[-1]`) and `acc` the rest
of the current run in reverse.  A new parameter `p` extends the run when
`is_contiguous_param(p, last)` holds, otherwise the run is emitted and a
fresh run starts at `p`. -/
def runsAux (pred : Param → Param → Bool) :
    List Param → Param → List Param → List (List Param)
  | [], last, acc => [(last :: acc).reverse]
  | p :: rest, last, acc =>
      if pred p last then runsAux pred rest p (last :: acc)
      else (last :: acc).reverse :: runsAux pred rest p []

/-- The grouping performed by `reorder_params` before each run is
collapsed: the sorted parameter list split into maximal runs of parameters
that are pairwise adjacent under `is_contiguous_param`. -/
def reorder_runs (params : List Param) : List (List Param) :=
  match sortParams params with
  | [] => []
  | p :: rest => runsAux is_contiguous_param rest p []

/-- Modelled from the spec: `collocate_params` (imported from
`bagua.torch_api.utils`, whose source is not available) collapses a run of
contiguous parameters into "a single logical parameter view spanning the
run" — the view keeps the first parameter's storage identity and offsets
and spans the run's total allocated size. -/
def collocate_params (run : List Param) : Param :=
  match run with
  | [] => default
  | p :: _ =>
      { ptr := p.ptr, offset := p.offset, gradOffset := p.gradOffset,
        numel := (run.map allocSize).sum, hasBagua := false, baguaAlloc := 0 }

/-- Source `reorder_params(params)` from `fuse_optimizer.py`: sort the parameters
of one shared storage by offset, group them into maximal contiguous runs,
and collapse each run. -/
def reorder_params (params : List Param) : List Param :=
  (reorder_runs params).map collocate_params

/-- One insertion step of `group_params_by_storage`'s dict building:
append `p` to the bucket keyed `k` if present, else add a new bucket at
the end (Python dicts preserve insertion order). -/
def addToGroup (k : Nat) (p : Param) :
    List (Nat × List Param) → List (Nat × List Param)
  | [] => [(k, [p])]
  | (k', l) :: rest =>
      if k' = k then (k', l ++ [p]) :: rest
      else (k', l) :: addToGroup k p rest

/-- Source `group_params_by_storage(params)`: partition the parameters by the
data pointer of their underlying storage, buckets ordered by first
encounter, each bucket keeping input order. -/
def group_params_by_storage (params : List Param) : List (Nat × List Param) :=
  params.foldl (fun acc p => addToGroup p.ptr p acc) []

/-- The parameter-list transformation of `FusedOptimizer.step` for one
optimizer parameter group: regroup by storage, reorder each bucket, and
concatenate the reordered buckets in bucket order. -/
def fused_params (params : List Param) : List Param :=
  ((group_params_by_storage params).map (fun kv => reorder_params kv.2)).flatten

/-- Source `FusedOptimizer.step`: every optimizer parameter group's `params`
entry is replaced by `fused_params` of its current value, before
delegating to the wrapped optimizer. -/
def fusedStep (param_groups : List (List Param)) : List (List Param) :=
  param_groups.map fused_params

/-- The storage keys of `params` in order of first encounter, skipping
keys already in `seen` — the bucket order a Python dict produces. -/
def firstKeys (seen : List Nat) : List Param → List Nat
  | [] => []
  | p :: rest =>
      if p.ptr ∈ seen then firstKeys seen rest
      else p.ptr :: firstKeys (p.ptr :: seen) rest

/-- Association-list lookup into the buckets of
`group_params_by_storage`. -/
def bucketOf (k : Nat) : List (Nat × List Param) → Option (List Param)
  | [] => none
  | (k', l) :: rest => if k' = k then some l else bucketOf k rest

/-! ## Communication (`communication.py`) -/

/-- The device a tensor lives on: the host, or an accelerator with an
index (`torch.device("cpu")` vs a CUDA device). -/
inductive Device where
  | cpu : Device
  | cuda : Nat → Device
deriving DecidableEq, Repr

/-- A tensor as the collective wrappers see it: its device and its element
values. -/
structure Tensor where
  device : Device
  values : List ℚ
deriving DecidableEq, Repr

/-- A `BaguaSingleCommunicatorPy` as far as its observable attributes go:
its rank within the scope and the scope's size (`nranks`), plus the
rendezvous identity token it was constructed with. -/
structure Communicator where
  rank : Nat
  nranks : Nat
  uid : String
deriving DecidableEq, Repr

/-- The environment values read by `bagua.torch_api.env`: global rank,
global world size and local (intra-node) group size. -/
structure Env where
  rank : Nat
  world_size : Nat
  local_size : Nat
deriving DecidableEq, Repr

/-- The rendezvous key-value store (`c10d` default store): an association
list from keys to published tokens. -/
abbrev Store := List (String × String)

/-- An observable operation against the rendezvous store. -/
inductive StoreOp where
  | set : String → String → StoreOp
  | get : String → StoreOp
deriving DecidableEq, Repr

/-- Look a key up in the store. -/
def storeLookup (key : String) : Store → Option String
  | [] => none
  | (k, v) :: rest => if k = key then some v else storeLookup key rest

/-- Source `gen_nccl_unique_id(comm_type, root, store)`: the process whose global
rank equals `root` generates a fresh token (`genId`, the opaque output of
the external generator) and publishes it under
`"{comm_type}-{root}-unique_id"`; every other process fetches that key
(blocking).  Returns the token, the updated store, and the store
operations performed. -/
def gen_nccl_unique_id (genId : String) (comm_type : String) (root : Nat)
    (env : Env) (store : Store) : String × Store × List StoreOp :=
  let key := comm_type ++ "-" ++ toString root ++ "-unique_id"
  if env.rank = root then
    (genId, (key, genId) :: store, [StoreOp.set key genId])
  else
    ((storeLookup key store).getD "", store, [StoreOp.get key])

/-- Source `init_bagua_inter_communicator(stream, leader_rank, store)`: first the
rendezvous exchange for `"bagua_inter_comm"` rooted at `leader_rank`, then
the membership check — a process whose `rank % local_size` differs from
`leader_rank` returns `None`; a leader gets a communicator with
`rank = R // L` and `nranks = W // L`. -/
def init_bagua_inter_communicator (genId : String) (leader_rank : Nat)
    (env : Env) (store : Store) : Option Communicator × Store × List StoreOp :=
  let r := gen_nccl_unique_id genId "bagua_inter_comm" leader_rank env store
  if env.rank % env.local_size ≠ leader_rank then (none, r.2.1, r.2.2)
  else
    (some { rank := env.rank / env.local_size,
            nranks := env.world_size / env.local_size, uid := r.1 },
     r.2.1, r.2.2)

/-- Source `init_bagua_intra_communicator(stream, store)`: rendezvous for
`"bagua_intra_comm"` rooted at the first rank of the node
(`R // L * L`), then a communicator with `rank = R % L` and
`nranks = L`. -/
def init_bagua_intra_communicator (genId : String) (env : Env)
    (store : Store) : Communicator × Store × List StoreOp :=
  let r := gen_nccl_unique_id genId "bagua_intra_comm"
    (env.rank / env.local_size * env.local_size) env store
  ({ rank := env.rank % env.local_size, nranks := env.local_size,
     uid := r.1 }, r.2.1, r.2.2)

/-- Source `init_bagua_communicator(stream, store)`: rendezvous for
`"bagua_global_comm"` rooted at rank 0, then a communicator with
`rank = R` and `nranks = W`. -/
def init_bagua_communicator (genId : String) (env : Env) (store : Store) :
    Communicator × Store × List StoreOp :=
  let r := gen_nccl_unique_id genId "bagua_global_comm" 0 env store
  ({ rank := env.rank, nranks := env.world_size, uid := r.1 }, r.2.1, r.2.2)

/-- Modelled from the spec: the `BaguaHyperparameter` value object
(defined in `bagua.bagua_define`, whose source is not available) is "a
hyperparameter snapshot"; only its identity matters here. -/
structure BaguaHyperparameter where
  bucket_size : Nat := 0
deriving DecidableEq, Repr

/-- Source `BaguaGlobalState`: the three communicators (the inter-node one
optional) and the hyperparameter snapshot created at initialization. -/
structure GlobalState where
  internode_communicator : Option Communicator
  intranode_communicator : Communicator
  global_communicator : Communicator
  hyperparameters : BaguaHyperparameter
deriving DecidableEq, Repr

/-- Constructing a `BaguaGlobalState`: the three communicator
initializations run in source order (inter, intra, global), threading the
store. -/
def mkGlobalState (genId : String) (env : Env) (store : Store) :
    GlobalState × Store :=
  let inter := init_bagua_inter_communicator genId 0 env store
  let intra := init_bagua_intra_communicator genId env inter.2.1
  let glob := init_bagua_communicator genId env intra.2.1
  ({ internode_communicator := inter.1, intranode_communicator := intra.1,
     global_communicator := glob.1,
     hyperparameters := {} }, glob.2.1)

/-- The mutable module-level state of `communication.py`: the
`_global_state` singleton, the `_autotune_server` handle (modelled by
whether it was started), and the rendezvous store. -/
structure ProcState where
  global_state : Option GlobalState
  autotune_started : Bool
  store : Store
deriving DecidableEq, Repr

/-- Source `is_initialized()`: whether the `_global_state` singleton exists. -/
def is_initialized (s : ProcState) : Bool :=
  s.global_state.isSome

/-- The error taxonomy of the spec.  `RepeatedInitializationError` is the
exception class `init_process_group` raises; `NotInitializedError` names
the failure of dereferencing the absent `_global_state` singleton
(`None` has no attribute); `InvalidDeviceError` names the failed device
assertion (`"input tensors must be CUDA and dense"`). -/
inductive CommError where
  | RepeatedInitializationError : CommError
  | NotInitializedError : CommError
  | InvalidDeviceError : CommError
deriving DecidableEq, Repr

/-- Source `init_process_group()`: raises `RepeatedInitializationError` when the
singleton already exists — before any mutation, so the state is returned
unchanged; otherwise rank 0 starts the autotune server and the global
state is built. -/
def init_process_group (genId : String) (env : Env) (s : ProcState) :
    ProcState × Option CommError :=
  if is_initialized s then (s, some CommError.RepeatedInitializationError)
  else
    let s1 : ProcState :=
      if env.rank = 0 then { s with autotune_started := true } else s
    let g := mkGlobalState genId env s1.store
    ({ s1 with global_state := some g.1, store := g.2 }, none)

/-- Source `get_bagua_hyperparameters()`: reads `_global_state.hyperparameters`;
with the singleton absent the attribute access fails
(`NotInitializedError` in the spec's taxonomy). -/
def get_bagua_hyperparameters (g : Option GlobalState) :
    Except CommError BaguaHyperparameter :=
  match g with
  | none => Except.error CommError.NotInitializedError
  | some st => Except.ok st.hyperparameters

/-- The `if comm is None: comm = _get_global_state().get_global_communicator()`
pattern shared by all collective wrappers: an explicit communicator is
used as is; otherwise the global communicator is resolved from the
singleton, which fails when uninitialized. -/
def resolveComm (comm : Option Communicator) (g : Option GlobalState) :
    Except CommError Communicator :=
  match comm with
  | some c => Except.ok c
  | none =>
      match g with
      | none => Except.error CommError.NotInitializedError
      | some st => Except.ok st.global_communicator

/-- Modelled from the spec: `flatten` (imported from
`bagua.torch_api.utils`, whose source is not available) "concatenates
tensor contents in input order" into one buffer. -/
def flatten (tensors : List (List ℚ)) : List ℚ :=
  tensors.flatten

/-- Modelled from the spec: `unflatten` (imported from
`bagua.torch_api.utils`, whose source is not available) splits a coalesced
buffer back into slices of the original tensors' sizes, in order. -/
def unflatten (buf : List ℚ) : List (List ℚ) → List (List ℚ)
  | [] => []
  | t :: ts => buf.take t.length :: unflatten (buf.drop t.length) ts

/-- Modelled from the spec: the transport's `comm.allreduce` combines
"every member's buffer via elementwise sum across all members", the
result being identical on every member.  `ranks` lists every member's
buffer. -/
def elemSum : List (List ℚ) → List ℚ
  | [] => []
  | [t] => t
  | t :: ts => List.zipWith (· + ·) t (elemSum ts)

/-- Elementwise sum of whole tensor lists across members (the coalesced
collective acting before flattening, used to state what the coalesced
variants compute per tensor). -/
def elemSum2 : List (List (List ℚ)) → List (List ℚ)
  | [] => []
  | [r] => r
  | r :: rs => List.zipWith (List.zipWith (· + ·)) r (elemSum2 rs)

/-- Source `broadcast(tensor, root, comm)`: the device assertion, then
communicator resolution, then the root's buffer replaces this rank's
values (`root_vals` is the root's pre-call buffer, the effect the spec
ascribes to `comm.broadcast`). -/
def broadcast (t : Tensor) (root_vals : List ℚ) (comm : Option Communicator)
    (g : Option GlobalState) : Except CommError Tensor :=
  if t.device = Device.cpu then Except.error CommError.InvalidDeviceError
  else
    match resolveComm comm g with
    | Except.error e => Except.error e
    | Except.ok _ => Except.ok { t with values := root_vals }

/-- Source `broadcast_coalesced(tensors, root, comm)`: every tensor's device is
asserted first; then the root's buffers are coalesced, broadcast as one
buffer, and scattered back into this rank's tensors. -/
def broadcast_coalesced (ts : List Tensor) (root_vals : List (List ℚ))
    (comm : Option Communicator) (g : Option GlobalState) :
    Except CommError (List Tensor) :=
  if ts.any (fun t => t.device = Device.cpu) then
    Except.error CommError.InvalidDeviceError
  else
    match resolveComm comm g with
    | Except.error e => Except.error e
    | Except.ok _ =>
        Except.ok (List.zipWith (fun t v => { t with values := v }) ts
          (unflatten (flatten root_vals) (ts.map Tensor.values)))

/-- Source `allreduce(tensor, average, comm)`: the device assertion, then
communicator resolution, then `comm.allreduce` (elementwise sum over all
members' buffers, `ranks`), then — only if `average` — a local division
of the summed result by `comm.nranks()`. -/
def allreduce (t : Tensor) (ranks : List (List ℚ)) (average : Bool)
    (comm : Option Communicator) (g : Option GlobalState) :
    Except CommError Tensor :=
  if t.device = Device.cpu then Except.error CommError.InvalidDeviceError
  else
    match resolveComm comm g with
    | Except.error e => Except.error e
    | Except.ok c =>
        let summed := elemSum ranks
        Except.ok { t with values :=
          if average then summed.map (fun x => x / (c.nranks : ℚ))
          else summed }

/-- Source `allreduce_coalesced(tensors, comm, average)`: every tensor's device
is asserted first; each member flattens its tensor list, the flat buffers
are summed elementwise across members, the summed flat buffer is divided
locally by `comm.nranks()` when `average` is set, and the result is
scattered back into this rank's tensors.  `ranks` lists every member's
tensor list; `ts` is the calling rank's. -/
def allreduce_coalesced (ts : List Tensor) (ranks : List (List (List ℚ)))
    (average : Bool) (comm : Option Communicator) (g : Option GlobalState) :
    Except CommError (List Tensor) :=
  if ts.any (fun t => t.device = Device.cpu) then
    Except.error CommError.InvalidDeviceError
  else
    match resolveComm comm g with
    | Except.error e => Except.error e
    | Except.ok c =>
        let summed := elemSum (ranks.map flatten)
        let scaled :=
          if average then summed.map (fun x => x / (c.nranks : ℚ))
          else summed
        Except.ok (List.zipWith (fun t v => { t with values := v }) ts
          (unflatten scaled (ts.map Tensor.values)))

/-! ## Helper lemmas -/

theorem getD_zipWith_of_lt {α β γ : Type} (f : α → β → γ) :
    ∀ (a : List α) (b : List β) (j : Nat) (da : α) (db : β) (dc : γ),
      j < a.length → j < b.length →
      (List.zipWith f a b).getD j dc = f (a.getD j da) (b.getD j db)
  | [], _, j, _, _, _, h, _ => absurd h (by simp)
  | _ :: _, [], j, _, _, _, _, h => absurd h (by simp)
  | _ :: _, _ :: _, 0, _, _, _, _, _ => rfl
  | _ :: a, _ :: b, j + 1, da, db, dc, ha, hb =>
      getD_zipWith_of_lt f a b j da db dc
        (Nat.lt_of_succ_lt_succ (by simpa using ha))
        (Nat.lt_of_succ_lt_succ (by simpa using hb))

theorem getD_map_of_lt {α β : Type} (f : α → β) :
    ∀ (l : List α) (j : Nat) (d : β) (d' : α), j < l.length →
      (l.map f).getD j d = f (l.getD j d')
  | [], j, _, _, h => absurd h (by simp)
  | _ :: _, 0, _, _, _ => rfl
  | _ :: l, j + 1, d, d', h =>
      getD_map_of_lt f l j d d' (Nat.lt_of_succ_lt_succ (by simpa using h))

theorem elemSum_length (m : Nat) :
    ∀ ls : List (List ℚ), ls ≠ [] → (∀ v ∈ ls, v.length = m) →
      (elemSum ls).length = m
  | [], h, _ => absurd rfl h
  | [t], _, hv => hv t (by simp)
  | t :: t' :: ts, _, hv => by
      have ih := elemSum_length m (t' :: ts) (by simp)
        (fun v hv' => hv v (List.mem_cons_of_mem _ hv'))
      simp [elemSum, ih, hv t (by simp)]

theorem elemSum_getD (m : Nat) :
    ∀ ls : List (List ℚ), ls ≠ [] → (∀ v ∈ ls, v.length = m) →
      ∀ j, j < m →
        (elemSum ls).getD j 0 = (ls.map (fun v => v.getD j 0)).sum
  | [], h, _, _, _ => absurd rfl h
  | [t], _, _, j, _ => by simp [elemSum]
  | t :: t' :: ts, _, hv, j, hj => by
      have hlen := elemSum_length m (t' :: ts) (by simp)
        (fun v hv' => hv v (List.mem_cons_of_mem _ hv'))
      have ih := elemSum_getD m (t' :: ts) (by simp)
        (fun v hv' => hv v (List.mem_cons_of_mem _ hv')) j hj
      have ht : t.length = m := hv t (by simp)
      calc (elemSum (t :: t' :: ts)).getD j 0
          = t.getD j 0 + (elemSum (t' :: ts)).getD j 0 := by
            simpa [elemSum] using
              getD_zipWith_of_lt (· + ·) t (elemSum (t' :: ts)) j 0 0 0
                (ht ▸ hj) (hlen ▸ hj)
        _ = ((t :: t' :: ts).map (fun v => v.getD j 0)).sum := by
            rw [List.map_cons, List.sum_cons, ih]

theorem unflatten_flatten_of_shapes :
    ∀ (vs shapes : List (List ℚ)),
      vs.map List.length = shapes.map List.length →
      unflatten vs.flatten shapes = vs := by
  intro vs
  induction vs with
  | nil => intro shapes h; cases shapes <;> simp_all [unflatten]
  | cons v vs ih =>
      intro shapes h
      cases shapes with
      | nil => simp at h
      | cons s ss =>
          simp only [List.map_cons, List.cons.injEq] at h
          simp [unflatten, List.take_left' h.1, List.drop_left' h.1, ih ss h.2]

theorem map_values_zipWith_set :
    ∀ (ts : List Tensor) (vs : List (List ℚ)), vs.length = ts.length →
      (List.zipWith (fun t v => { t with values := v }) ts vs).map
        Tensor.values = vs
  | [], [], _ => rfl
  | [], _ :: _, h => by simp at h
  | _ :: _, [], h => by simp at h
  | t :: ts, v :: vs, h => by
      simp [map_values_zipWith_set ts vs (by simpa using h)]

theorem zipWith_set_self :
    ∀ ts : List Tensor,
      List.zipWith (fun t v => { t with values := v }) ts
        (ts.map Tensor.values) = ts
  | [] => rfl
  | t :: ts => by simp [zipWith_set_self ts]

theorem zipWith_add_flatten :
    ∀ r s : List (List ℚ), r.map List.length = s.map List.length →
      List.zipWith (· + ·) r.flatten s.flatten =
        (List.zipWith (List.zipWith (· + ·)) r s).flatten
  | [], [], _ => rfl
  | [], _ :: _, h => by simp at h
  | _ :: _, [], h => by simp at h
  | a :: r, b :: s, h => by
      simp only [List.map_cons, List.cons.injEq] at h
      simp only [List.flatten_cons, List.zipWith_cons_cons]
      rw [List.zipWith_append _ _ _ _ _ h.1,
        zipWith_add_flatten r s h.2]

theorem zipWith_zipWith_map_length :
    ∀ (a b : List (List ℚ)) (sh : List Nat),
      a.map List.length = sh → b.map List.length = sh →
      (List.zipWith (List.zipWith (· + ·)) a b).map List.length = sh
  | [], [], _, _, _ => by simp_all
  | [], _ :: _, sh, h1, h2 => by simp at h1; subst h1; simp at h2
  | _ :: _, [], sh, h1, h2 => by simp at h2; subst h2; simp at h1
  | x :: a, y :: b, sh, h1, h2 => by
      cases sh with
      | nil => simp at h1
      | cons n sh =>
          simp only [List.map_cons, List.cons.injEq] at h1 h2
          simp [List.length_zipWith, h1.1, h2.1,
            zipWith_zipWith_map_length a b sh h1.2 h2.2]

theorem elemSum2_map_length (sh : List Nat) :
    ∀ rs : List (List (List ℚ)), rs ≠ [] →
      (∀ r ∈ rs, r.map List.length = sh) →
      (elemSum2 rs).map List.length = sh
  | [], h, _ => absurd rfl h
  | [r], _, hr => hr r (by simp)
  | r :: r' :: rs, _, hr => by
      have ih := elemSum2_map_length sh (r' :: rs) (by simp)
        (fun x hx => hr x (List.mem_cons_of_mem _ hx))
      simpa [elemSum2] using
        zipWith_zipWith_map_length r (elemSum2 (r' :: rs)) sh
          (hr r (by simp)) ih

theorem elemSum_map_flatten (sh : List Nat) :
    ∀ rs : List (List (List ℚ)), rs ≠ [] →
      (∀ r ∈ rs, r.map List.length = sh) →
      elemSum (rs.map List.flatten) = (elemSum2 rs).flatten
  | [], h, _ => absurd rfl h
  | [r], _, _ => by simp [elemSum, elemSum2]
  | r :: r' :: rs, _, hr => by
      have ih := elemSum_map_flatten sh (r' :: rs) (by simp)
        (fun x hx => hr x (List.mem_cons_of_mem _ hx))
      have hsh := elemSum2_map_length sh (r' :: rs) (by simp)
        (fun x hx => hr x (List.mem_cons_of_mem _ hx))
      calc elemSum ((r :: r' :: rs).map List.flatten)
          = List.zipWith (· + ·) r.flatten
              (elemSum ((r' :: rs).map List.flatten)) := by
            simp [elemSum]
        _ = List.zipWith (· + ·) r.flatten (elemSum2 (r' :: rs)).flatten := by
            rw [ih]
        _ = (List.zipWith (List.zipWith (· + ·)) r
              (elemSum2 (r' :: rs))).flatten :=
            zipWith_add_flatten r (elemSum2 (r' :: rs))
              ((hr r (by simp)).trans hsh.symm)
        _ = (elemSum2 (r :: r' :: rs)).flatten := by simp [elemSum2]

theorem elemSum2_getD (sh : List Nat) :
    ∀ rs : List (List (List ℚ)), rs ≠ [] →
      (∀ r ∈ rs, r.map List.length = sh) →
      ∀ k, k < sh.length →
        (elemSum2 rs).getD k [] = elemSum (rs.map (fun r => r.getD k []))
  | [], h, _, _, _ => absurd rfl h
  | [r], _, _, k, _ => by simp [elemSum2, elemSum]
  | r :: r' :: rs, _, hr, k, hk => by
      have hlen : r.length = sh.length := by
        have := hr r (by simp); simpa using congrArg List.length this
      have hlen2 : (elemSum2 (r' :: rs)).length = sh.length := by
        have := elemSum2_map_length sh (r' :: rs) (by simp)
          (fun x hx => hr x (List.mem_cons_of_mem _ hx))
        simpa using congrArg List.length this
      have ih := elemSum2_getD sh (r' :: rs) (by simp)
        (fun x hx => hr x (List.mem_cons_of_mem _ hx)) k hk
      calc (elemSum2 (r :: r' :: rs)).getD k []
          = List.zipWith (· + ·) (r.getD k [])
              ((elemSum2 (r' :: rs)).getD k []) := by
            simpa [elemSum2] using
              getD_zipWith_of_lt (List.zipWith (· + ·)) r
                (elemSum2 (r' :: rs)) k [] [] []
                (hlen ▸ hk) (hlen2 ▸ hk)
        _ = List.zipWith (· + ·) (r.getD k [])
              (elemSum ((r' :: rs).map (fun x => x.getD k []))) := by rw [ih]
        _ = elemSum ((r :: r' :: rs).map (fun x => x.getD k [])) := by
            simp [elemSum]

theorem getLast?_reverse_cons (x : Param) (acc : List Param) :
    ((x :: acc).reverse).getLast? = some x := by
  simp [List.reverse_cons, List.getLast?_concat]

theorem runsAux_flatten (pred : Param → Param → Bool) :
    ∀ (l : List Param) (last : Param) (acc : List Param),
      (runsAux pred l last acc).flatten = acc.reverse ++ last :: l
  | [], last, acc => by simp [runsAux]
  | p :: rest, last, acc => by
      by_cases h : pred p last = true
      · rw [runsAux, if_pos h, runsAux_flatten pred rest p (last :: acc)]
        simp
      · rw [runsAux, if_neg h]
        simp [runsAux_flatten pred rest p []]

theorem runsAux_ne_nil (pred : Param → Param → Bool) :
    ∀ (l : List Param) (last : Param) (acc : List Param),
      ∀ run ∈ runsAux pred l last acc, run ≠ []
  | [], last, acc => by simp [runsAux]
  | p :: rest, last, acc => by
      by_cases h : pred p last = true
      · rw [runsAux, if_pos h]
        exact runsAux_ne_nil pred rest p (last :: acc)
      · rw [runsAux, if_neg h]
        intro run hrun
        rcases List.mem_cons.mp hrun with h1 | h2
        · subst h1; simp
        · exact runsAux_ne_nil pred rest p [] run h2

theorem runsAux_chain (pred : Param → Param → Bool) :
    ∀ (l : List Param) (last : Param) (acc : List Param),
      List.Chain' (fun a b => pred b a = true) ((last :: acc).reverse) →
      ∀ run ∈ runsAux pred l last acc,
        run.Chain' (fun a b => pred b a = true)
  | [], last, acc => by
      intro hch run hrun
      rw [runsAux] at hrun
      simp only [List.mem_singleton] at hrun
      subst hrun; exact hch
  | p :: rest, last, acc => by
      intro hch run hrun
      by_cases h : pred p last = true
      · rw [runsAux, if_pos h] at hrun
        refine runsAux_chain pred rest p (last :: acc) ?_ run hrun
        rw [List.reverse_cons]
        refine List.chain'_append.mpr ⟨by simpa using hch, by simp, ?_⟩
        intro x hx y hy
        rw [getLast?_reverse_cons] at hx
        simp only [List.head?_cons, Option.mem_some_iff] at hx hy
        subst hx; subst hy; exact h
      · rw [runsAux, if_neg h] at hrun
        rcases List.mem_cons.mp hrun with h1 | h2
        · subst h1; exact hch
        · exact runsAux_chain pred rest p [] (by simp) run h2

theorem runsAux_head (pred : Param → Param → Bool) :
    ∀ (l : List Param) (last : Param) (acc : List Param),
      ∃ ext, (runsAux pred l last acc).head? =
        some ((last :: acc).reverse ++ ext)
  | [], last, acc => ⟨[], by simp [runsAux]⟩
  | p :: rest, last, acc => by
      by_cases h : pred p last = true
      · obtain ⟨ext, hext⟩ := runsAux_head pred rest p (last :: acc)
        refine ⟨p :: ext, ?_⟩
        rw [runsAux, if_pos h, hext]
        simp
      · exact ⟨[], by rw [runsAux, if_neg h]; simp⟩

theorem runsAux_boundaries (pred : Param → Param → Bool) :
    ∀ (l : List Param) (last : Param) (acc : List Param),
      (runsAux pred l last acc).Chain'
        (fun g h => ∀ x ∈ g.getLast?, ∀ y ∈ h.head?, pred y x = false)
  | [], last, acc => by simp [runsAux]
  | p :: rest, last, acc => by
      by_cases h : pred p last = true
      · rw [runsAux, if_pos h]
        exact runsAux_boundaries pred rest p (last :: acc)
      · rw [runsAux, if_neg h]
        refine List.chain'_cons'.mpr ⟨?_, runsAux_boundaries pred rest p []⟩
        intro b hb x hx y hy
        obtain ⟨ext, hext⟩ := runsAux_head pred rest p []
        rw [hext] at hb
        simp only [Option.mem_some_iff] at hb
        subst hb
        rw [getLast?_reverse_cons] at hx
        simp only [Option.mem_some_iff] at hx
        subst hx
        simp only [List.reverse_cons, List.reverse_nil, List.nil_append,
          List.cons_append, List.head?_cons, Option.mem_some_iff] at hy
        subst hy
        simpa using h

theorem bucketOf_addToGroup (k k' : Nat) (p : Param) :
    ∀ acc : List (Nat × List Param),
      bucketOf k (addToGroup k' p acc) =
        if k' = k then some (((bucketOf k acc).getD []) ++ [p])
        else bucketOf k acc
  | [] => by
      by_cases h : k' = k <;> simp [addToGroup, bucketOf, h]
  | (k₀, l) :: rest => by
      by_cases h0 : k₀ = k'
      · subst h0
        by_cases h : k₀ = k <;>
          simp [addToGroup, bucketOf, h]
      · by_cases h : k₀ = k
        · subst h
          have h' : k' ≠ k₀ := fun hc => h0 hc.symm
          simp [addToGroup, bucketOf, h0, h']
        · simp [addToGroup, bucketOf, h0, h,
            bucketOf_addToGroup k k' p rest]

theorem keys_addToGroup (k : Nat) (p : Param) :
    ∀ acc : List (Nat × List Param),
      (addToGroup k p acc).map Prod.fst =
        if k ∈ acc.map Prod.fst then acc.map Prod.fst
        else acc.map Prod.fst ++ [k]
  | [] => by simp [addToGroup]
  | (k₀, l) :: rest => by
      by_cases h : k₀ = k
      · subst h; simp [addToGroup]
      · have h' : ¬ k = k₀ := fun hc => h hc.symm
        have e1 : addToGroup k p ((k₀, l) :: rest) =
            (k₀, l) :: addToGroup k p rest := by
          simp [addToGroup, h]
        rw [e1, List.map_cons, List.map_cons, keys_addToGroup k p rest]
        by_cases hk : k ∈ rest.map Prod.fst
        · rw [if_pos hk, if_pos (List.mem_cons_of_mem _ hk)]
        · rw [if_neg hk, if_neg (by simp [List.mem_cons, h', hk])]
          simp

theorem firstKeys_congr :
    ∀ (params : List Param) (s s' : List Nat),
      (∀ x, x ∈ s ↔ x ∈ s') → firstKeys s params = firstKeys s' params
  | [], _, _, _ => rfl
  | p :: rest, s, s', h => by
      by_cases hp : p.ptr ∈ s
      · rw [firstKeys, if_pos hp, firstKeys,
          if_pos ((h p.ptr).mp hp)]
        exact firstKeys_congr rest s s' h
      · rw [firstKeys, if_neg hp, firstKeys,
          if_neg (fun hc => hp ((h p.ptr).mpr hc))]
        refine congrArg _ (firstKeys_congr rest _ _ ?_)
        intro x; simp [h x]

theorem foldl_group_keys :
    ∀ (params : List Param) (acc : List (Nat × List Param)),
      (params.foldl (fun a p => addToGroup p.ptr p a) acc).map Prod.fst =
        acc.map Prod.fst ++ firstKeys (acc.map Prod.fst) params
  | [], acc => by simp [firstKeys]
  | p :: rest, acc => by
      rw [List.foldl_cons, foldl_group_keys rest (addToGroup p.ptr p acc),
        keys_addToGroup]
      by_cases hp : p.ptr ∈ acc.map Prod.fst
      · rw [if_pos hp, firstKeys, if_pos hp]
      · rw [if_neg hp, firstKeys, if_neg hp]
        rw [firstKeys_congr rest (acc.map Prod.fst ++ [p.ptr])
          (p.ptr :: acc.map Prod.fst) (by intro x; simp; tauto)]
        simp

theorem foldl_group_bucketOf :
    ∀ (params : List Param) (acc : List (Nat × List Param)) (k : Nat),
      bucketOf k (params.foldl (fun a p => addToGroup p.ptr p a) acc) =
        match bucketOf k acc with
        | some l => some (l ++ params.filter (fun p => decide (p.ptr = k)))
        | none =>
            if params.any (fun p => decide (p.ptr = k))
            then some (params.filter (fun p => decide (p.ptr = k)))
            else none
  | [], acc, k => by cases hacc : bucketOf k acc <;> simp [hacc]
  | p :: rest, acc, k => by
      rw [List.foldl_cons,
        foldl_group_bucketOf rest (addToGroup p.ptr p acc) k,
        bucketOf_addToGroup]
      by_cases hp : p.ptr = k
      · rw [if_pos hp]
        cases hacc : bucketOf k acc with
        | some l => simp [List.filter_cons, List.any_cons, hp]
        | none => simp [List.filter_cons, List.any_cons, hp]
      · rw [if_neg hp]
        cases hacc : bucketOf k acc with
        | some l => simp [List.filter_cons, List.any_cons, hp]
        | none => simp [List.filter_cons, List.any_cons, hp]

theorem bucketOf_mem :
    ∀ (acc : List (Nat × List Param)) (k : Nat) (l : List Param),
      bucketOf k acc = some l → (k, l) ∈ acc
  | [], k, l, h => by simp [bucketOf] at h
  | (k₀, l₀) :: rest, k, l, h => by
      by_cases hk : k₀ = k
      · subst hk
        rw [bucketOf, if_pos rfl] at h
        simp only [Option.some.injEq] at h
        subst h; exact List.mem_cons_self _ _
      · rw [bucketOf, if_neg hk] at h
        exact List.mem_cons_of_mem _ (bucketOf_mem rest k l h)

theorem mem_bucketOf :
    ∀ (acc : List (Nat × List Param)), (acc.map Prod.fst).Nodup →
      ∀ (k : Nat) (l : List Param), (k, l) ∈ acc → bucketOf k acc = some l
  | [], _, k, l, h => by simp at h
  | (k₀, l₀) :: rest, hnd, k, l, h => by
      rcases List.mem_cons.mp h with h1 | h2
      · rw [Prod.mk.injEq] at h1
        rw [bucketOf, if_pos h1.1.symm, h1.2]
      · have hk : k₀ ≠ k := by
          intro hc; subst hc
          have : k₀ ∈ rest.map Prod.fst :=
            List.mem_map.mpr ⟨(k₀, l), h2, rfl⟩
          exact (List.nodup_cons.mp (by simpa using hnd)).1 this
        rw [bucketOf, if_neg hk]
        exact mem_bucketOf rest
          (List.nodup_cons.mp (by simpa using hnd)).2 k l h2

theorem firstKeys_nodup :
    ∀ (params : List Param) (s : List Nat),
      (firstKeys s params).Nodup ∧ ∀ x ∈ firstKeys s params, x ∉ s
  | [], s => by simp [firstKeys]
  | p :: rest, s => by
      by_cases hp : p.ptr ∈ s
      · rw [firstKeys, if_pos hp]
        exact firstKeys_nodup rest s
      · rw [firstKeys, if_neg hp]
        obtain ⟨hnd, hnotin⟩ := firstKeys_nodup rest (p.ptr :: s)
        refine ⟨List.nodup_cons.mpr ⟨?_, hnd⟩, ?_⟩
        · intro hc
          exact hnotin p.ptr hc (List.mem_cons_self _ _)
        · intro x hx
          rcases List.mem_cons.mp hx with h1 | h2
          · subst h1; exact hp
          · intro hc
            exact hnotin x h2 (List.mem_cons_of_mem _ hc)

/-! ## Claim theorems -/

/-- C1 (amended): for every parameter list sharing one allocation, the
grouper sorts parameters by storage offset ascending (stably) and splits
the sorted list into maximal runs of parameters adjacent under
`is_contiguous_param` — the later parameter starting where the earlier's
allocation ends for data and gradient alike, or symmetrically the earlier
starting where the later's allocation ends (the source tests both
orientations; after sorting the second orientation can only fire for
zero-sized parameters).  Maximal runs become fused groups, non-contiguous
parameters singletons; `reorder_params` collapses each run.  For
A=(0,10), B=(10,10), C=(30,5) the result is exactly [A,B] then [C]. -/
theorem reorder_params_maximal_runs (params : List Param) :
    (reorder_runs params).flatten = sortParams params ∧
    List.Pairwise (fun a b : Param => a.offset ≤ b.offset)
      (sortParams params) ∧
    List.Perm (sortParams params) params ∧
    (∀ run ∈ reorder_runs params, run ≠ [] ∧
      run.Chain' (fun a b => is_contiguous_param b a = true)) ∧
    (reorder_runs params).Chain'
      (fun g h => ∀ x ∈ g.getLast?, ∀ y ∈ h.head?,
        is_contiguous_param y x = false) ∧
    reorder_params params = (reorder_runs params).map collocate_params ∧
    reorder_runs [⟨100, 0, 0, 10, false, 0⟩, ⟨100, 10, 10, 10, false, 0⟩,
        ⟨100, 30, 30, 5, false, 0⟩] =
      [[⟨100, 0, 0, 10, false, 0⟩, ⟨100, 10, 10, 10, false, 0⟩],
        [⟨100, 30, 30, 5, false, 0⟩]] := by
  refine ⟨?_, List.sorted_insertionSort _ _, List.perm_insertionSort _ _,
    ?_, ?_, rfl, by decide⟩
  · rw [reorder_runs]
    cases hs : sortParams params with
    | nil => rfl
    | cons p rest => rw [runsAux_flatten]; rfl
  · intro run hrun
    rw [reorder_runs] at hrun
    cases hs : sortParams params with
    | nil => rw [hs] at hrun; simp at hrun
    | cons p rest =>
        rw [hs] at hrun
        exact ⟨runsAux_ne_nil _ rest p [] run hrun,
          runsAux_chain _ rest p [] (by simp) run hrun⟩
  · rw [reorder_runs]
    cases hs : sortParams params with
    | nil => simp
    | cons p rest => exact runsAux_boundaries _ rest p []

/-- C1 counterexample: two parameters sharing one storage, the earlier of
size 5 at offset 0 and the later of size 0 at offset 0, are merged into
one run by the code even though the later's offset (0) does not equal the
earlier's offset plus its allocated element count (0 + 5): the claim's
one-directional contiguity condition (`spec_contiguous`) is false, yet the
symmetric orientation in `is_contiguous_param` fires. -/
theorem reorder_merges_without_spec_contiguity :
    sortParams [⟨7, 0, 0, 5, false, 0⟩, ⟨7, 0, 0, 0, false, 0⟩] =
      [⟨7, 0, 0, 5, false, 0⟩, ⟨7, 0, 0, 0, false, 0⟩] ∧
    reorder_runs [⟨7, 0, 0, 5, false, 0⟩, ⟨7, 0, 0, 0, false, 0⟩] =
      [[⟨7, 0, 0, 5, false, 0⟩, ⟨7, 0, 0, 0, false, 0⟩]] ∧
    spec_contiguous ⟨7, 0, 0, 0, false, 0⟩ ⟨7, 0, 0, 5, false, 0⟩ = false := by
  decide

/-- C10: `group_params_by_storage` is a partition keyed by the data
storage pointer: bucket keys are the pointers in order of first encounter
and are distinct, each bucket is exactly the sublist of parameters with
that pointer (in input order), and every input parameter lies in the
bucket of its own pointer.  `FusedOptimizer.step` rebuilds every group's
parameter list as `fused_params` of its current value — a pure function
of the current parameters, recomputed on each call. -/
theorem group_params_partition (params : List Param)
    (pgs : List (List Param)) :
    (group_params_by_storage params).map Prod.fst = firstKeys [] params ∧
    ((group_params_by_storage params).map Prod.fst).Nodup ∧
    (∀ k l, (k, l) ∈ group_params_by_storage params →
      l = params.filter (fun p => decide (p.ptr = k))) ∧
    (∀ p ∈ params,
      (p.ptr, params.filter (fun q => decide (q.ptr = p.ptr))) ∈
        group_params_by_storage params ∧
      p ∈ params.filter (fun q => decide (q.ptr = p.ptr))) ∧
    fusedStep pgs = pgs.map fused_params ∧
    fused_params params =
      ((group_params_by_storage params).map
        (fun kv => reorder_params kv.2)).flatten := by
  have hkeys : (group_params_by_storage params).map Prod.fst =
      firstKeys [] params := by
    have := foldl_group_keys params []
    simpa [group_params_by_storage] using this
  have hnd : ((group_params_by_storage params).map Prod.fst).Nodup := by
    rw [hkeys]; exact (firstKeys_nodup params []).1
  have hbucket : ∀ k l, (k, l) ∈ group_params_by_storage params →
      l = params.filter (fun p => decide (p.ptr = k)) := by
    intro k l hmem
    have hsome : bucketOf k (group_params_by_storage params) = some l :=
      mem_bucketOf _ hnd k l hmem
    have := foldl_group_bucketOf params [] k
    rw [show (params.foldl (fun a p => addToGroup p.ptr p a) []) =
      group_params_by_storage params from rfl] at this
    rw [hsome] at this
    simp only [bucketOf] at this
    by_cases hany : params.any (fun p => decide (p.ptr = k)) = true
    · rw [if_pos hany] at this
      exact (Option.some.injEq _ _ ▸ this).symm ▸ by
        cases this; rfl
    · rw [if_neg hany] at this; cases this
  refine ⟨hkeys, hnd, hbucket, ?_, rfl, rfl⟩
  intro p hp
  have hany : params.any (fun q => decide (q.ptr = p.ptr)) = true :=
    List.any_eq_true.mpr ⟨p, hp, by simp⟩
  have := foldl_group_bucketOf params [] p.ptr
  rw [show (params.foldl (fun a p => addToGroup p.ptr p a) []) =
    group_params_by_storage params from rfl] at this
  simp only [bucketOf, if_pos hany] at this
  exact ⟨bucketOf_mem _ _ _ this,
    List.mem_filter.mpr ⟨hp, by simp⟩⟩

/-- C4: the topology builder gives the intra-node communicator rank
R mod L and size L, the global communicator rank R and size W, and the
inter-node communicator rank R div L and size W div L exactly for ranks
with R mod L equal to the leader offset 0, `None` otherwise.  For W=8,
L=4 the inter-node members are exactly global ranks 0 and 4, mapped to
inter-node ranks 0 and 1. -/
theorem topology_ranks (genId : String) (env : Env) (store : Store) :
    (init_bagua_intra_communicator genId env store).1 =
      { rank := env.rank % env.local_size, nranks := env.local_size,
        uid := (gen_nccl_unique_id genId "bagua_intra_comm"
          (env.rank / env.local_size * env.local_size) env store).1 } ∧
    (init_bagua_communicator genId env store).1 =
      { rank := env.rank, nranks := env.world_size,
        uid := (gen_nccl_unique_id genId "bagua_global_comm" 0 env store).1 } ∧
    (init_bagua_inter_communicator genId 0 env store).1 =
      (if env.rank % env.local_size = 0 then
        some { rank := env.rank / env.local_size,
               nranks := env.world_size / env.local_size,
               uid := (gen_nccl_unique_id genId "bagua_inter_comm" 0 env
                 store).1 }
       else none) ∧
    ((List.range 8).map (fun R =>
        ((init_bagua_inter_communicator genId 0 ⟨R, 8, 4⟩ store).1).isSome) =
      [true, false, false, false, true, false, false, false]) ∧
    ((init_bagua_inter_communicator genId 0 ⟨0, 8, 4⟩ store).1.map
      Communicator.rank = some 0) ∧
    ((init_bagua_inter_communicator genId 0 ⟨4, 8, 4⟩ store).1.map
      Communicator.rank = some 1) := by
  refine ⟨rfl, rfl, ?_, ?_, ?_, ?_⟩
  · by_cases h : env.rank % env.local_size = 0
    · rw [if_pos h]
      simp [init_bagua_inter_communicator, h]
    · rw [if_neg h]
      simp [init_bagua_inter_communicator, h]
  · simp [List.range_succ, init_bagua_inter_communicator]
  · simp [init_bagua_inter_communicator]
  · simp [init_bagua_inter_communicator]

/-- C5 counterexample: with W=6 and L=4 (W not divisible by L) the leader
rank 0 receives an inter-node communicator of size 6 div 4 = 1 — the
builder succeeds with a silently floored size instead of reporting a
configuration error. -/
theorem inter_truncates_nondivisible :
    (init_bagua_inter_communicator "tok" 0 ⟨0, 6, 4⟩ []).1 =
      some { rank := 0, nranks := 1, uid := "tok" } ∧ (6 : Nat) % 4 ≠ 0 := by
  decide

/-- C5 (amended): the topology builder performs no divisibility check:
for any W and L, a leader rank always receives an inter-node communicator
whose size is W div L (floor division) — when L does not divide W the
size is silently truncated and no error is reported. -/
theorem inter_leader_floored (genId : String) (env : Env) (store : Store)
    (h : env.rank % env.local_size = 0) :
    (init_bagua_inter_communicator genId 0 env store).1 =
      some { rank := env.rank / env.local_size,
             nranks := env.world_size / env.local_size,
             uid := (gen_nccl_unique_id genId "bagua_inter_comm" 0 env
               store).1 } := by
  simp [init_bagua_inter_communicator, h]

theorem inter_leader_floored_witness :
    (0 : Nat) % 4 = 0 ∧
    (init_bagua_inter_communicator "tok" 0 ⟨0, 6, 4⟩ []).1 =
      some { rank := 0 / 4, nranks := 6 / 4,
             uid := (gen_nccl_unique_id "tok" "bagua_inter_comm" 0 ⟨0, 6, 4⟩
               []).1 } :=
  ⟨by decide, inter_leader_floored "tok" ⟨0, 6, 4⟩ [] (by decide)⟩

/-- C9: every process performs the inter-node rendezvous exchange — the
leader publishes the identity token, every other rank (member or not)
fetches it — and the store operations are exactly those of
`gen_nccl_unique_id`, performed before the membership check; only
afterwards do non-leader processes return `None`. -/
theorem inter_rendezvous_all_ranks (genId : String) (leader : Nat)
    (env : Env) (store : Store) :
    ((init_bagua_inter_communicator genId leader env store).2.2 =
      if env.rank = leader
      then [StoreOp.set ("bagua_inter_comm-" ++ toString leader ++
        "-unique_id") genId]
      else [StoreOp.get ("bagua_inter_comm-" ++ toString leader ++
        "-unique_id")]) ∧
    ((init_bagua_inter_communicator genId leader env store).2.2 =
      (gen_nccl_unique_id genId "bagua_inter_comm" leader env store).2.2) ∧
    (env.rank % env.local_size ≠ leader →
      (init_bagua_inter_communicator genId leader env store).1 = none) := by
  have hops : (init_bagua_inter_communicator genId leader env store).2.2 =
      (gen_nccl_unique_id genId "bagua_inter_comm" leader env store).2.2 := by
    by_cases hm : env.rank % env.local_size ≠ leader <;>
      simp [init_bagua_inter_communicator, hm]
  refine ⟨?_, hops, ?_⟩
  · rw [hops]
    by_cases h : env.rank = leader
    · rw [if_pos h]; simp [gen_nccl_unique_id, h]
    · rw [if_neg h]; simp [gen_nccl_unique_id, h]
  · intro hm
    simp [init_bagua_inter_communicator, hm]

theorem inter_rendezvous_all_ranks_witness :
    ((init_bagua_inter_communicator "tok" 0 ⟨1, 8, 4⟩ []).2.2 =
      if (1 : Nat) = 0
      then [StoreOp.set ("bagua_inter_comm-" ++ toString 0 ++ "-unique_id")
        "tok"]
      else [StoreOp.get ("bagua_inter_comm-" ++ toString 0 ++
        "-unique_id")]) ∧
    (init_bagua_inter_communicator "tok" 0 ⟨1, 8, 4⟩ []).1 = none :=
  ⟨(inter_rendezvous_all_ranks "tok" 0 ⟨1, 8, 4⟩ []).1,
    (inter_rendezvous_all_ranks "tok" 0 ⟨1, 8, 4⟩ []).2.2 (by decide)⟩

/-- C7: a second `init_process_group()` call in the same process fails
with `RepeatedInitializationError`, and the module state is returned
unchanged — the check precedes every side effect. -/
theorem repeated_init_unchanged (genId : String) (env : Env) (s : ProcState)
    (h : is_initialized s = true) :
    init_process_group genId env s =
      (s, some CommError.RepeatedInitializationError) := by
  simp [init_process_group, h]

theorem repeated_init_unchanged_witness :
    is_initialized
      ⟨some ⟨none, ⟨0, 1, "t"⟩, ⟨0, 1, "t"⟩, ⟨0⟩⟩, false, []⟩ = true ∧
    init_process_group "g" ⟨0, 1, 1⟩
      ⟨some ⟨none, ⟨0, 1, "t"⟩, ⟨0, 1, "t"⟩, ⟨0⟩⟩, false, []⟩ =
      (⟨some ⟨none, ⟨0, 1, "t"⟩, ⟨0, 1, "t"⟩, ⟨0⟩⟩, false, []⟩,
        some CommError.RepeatedInitializationError) :=
  ⟨rfl, repeated_init_unchanged "g" ⟨0, 1, 1⟩ _ rfl⟩

/-- C8: reading `get_bagua_hyperparameters` before initialization fails
with `NotInitializedError`, and so does any collective that must resolve
its communicator from the uninitialized singleton (`resolveComm`,
exercised through `broadcast` and `allreduce` with `comm=None`). -/
theorem uninitialized_accessor_error (t : Tensor) (rv : List ℚ)
    (ranks : List (List ℚ)) (avg : Bool)
    (hdev : t.device ≠ Device.cpu) :
    get_bagua_hyperparameters none =
      Except.error CommError.NotInitializedError ∧
    resolveComm none none = Except.error CommError.NotInitializedError ∧
    broadcast t rv none none =
      Except.error CommError.NotInitializedError ∧
    allreduce t ranks avg none none =
      Except.error CommError.NotInitializedError := by
  refine ⟨rfl, rfl, ?_, ?_⟩ <;>
    simp [broadcast, allreduce, resolveComm, hdev]

theorem uninitialized_accessor_error_witness :
    get_bagua_hyperparameters none =
      Except.error CommError.NotInitializedError ∧
    resolveComm none none = Except.error CommError.NotInitializedError ∧
    broadcast ⟨Device.cuda 0, []⟩ [] none none =
      Except.error CommError.NotInitializedError ∧
    allreduce ⟨Device.cuda 0, []⟩ [] true none none =
      Except.error CommError.NotInitializedError :=
  uninitialized_accessor_error ⟨Device.cuda 0, []⟩ [] [] true (by decide)

/-- C6: every collective wrapper checks its input tensors' devices before
any communication; a host-resident tensor makes the call fail with
`InvalidDeviceError` (the spec's name for the failed device assertion)
and the error result carries no partially updated tensors. -/
theorem host_tensor_invalid_device (t : Tensor) (ts : List Tensor)
    (rv : List ℚ) (rvs : List (List ℚ)) (ranks : List (List ℚ))
    (ranks2 : List (List (List ℚ))) (avg : Bool)
    (comm : Option Communicator) (g : Option GlobalState)
    (ht : t.device = Device.cpu) (hts : ∃ t' ∈ ts, t'.device = Device.cpu) :
    broadcast t rv comm g = Except.error CommError.InvalidDeviceError ∧
    allreduce t ranks avg comm g =
      Except.error CommError.InvalidDeviceError ∧
    broadcast_coalesced ts rvs comm g =
      Except.error CommError.InvalidDeviceError ∧
    allreduce_coalesced ts ranks2 avg comm g =
      Except.error CommError.InvalidDeviceError := by
  have hany : (ts.any fun t' => t'.device = Device.cpu) = true := by
    obtain ⟨t', ht', hd⟩ := hts
    exact List.any_eq_true.mpr ⟨t', ht', by simp [hd]⟩
  exact ⟨by simp [broadcast, ht], by simp [allreduce, ht],
    by simp [broadcast_coalesced, hany], by simp [allreduce_coalesced, hany]⟩

theorem host_tensor_invalid_device_witness :
    broadcast ⟨Device.cpu, []⟩ [] none none =
      Except.error CommError.InvalidDeviceError ∧
    allreduce ⟨Device.cpu, []⟩ [] true none none =
      Except.error CommError.InvalidDeviceError ∧
    broadcast_coalesced [⟨Device.cpu, []⟩] [] none none =
      Except.error CommError.InvalidDeviceError ∧
    allreduce_coalesced [⟨Device.cpu, []⟩] [] true none none =
      Except.error CommError.InvalidDeviceError :=
  host_tensor_invalid_device ⟨Device.cpu, []⟩ [⟨Device.cpu, []⟩] [] [] [] []
    true none none rfl ⟨⟨Device.cpu, []⟩, by simp⟩

/-- C3: scattering the coalesced buffer back into the original tensors,
with no mutation in between, reproduces every tensor's values exactly —
`unflatten (flatten T) T = T` — and consequently a coalesced broadcast
whose incoming buffer equals this rank's own values leaves the tensors
unchanged. -/
theorem coalesce_scatter_roundtrip (ts : List (List ℚ))
    (tensors : List Tensor) (c : Communicator) (g : Option GlobalState)
    (hdev : ∀ t ∈ tensors, t.device ≠ Device.cpu) :
    unflatten (flatten ts) ts = ts ∧
    broadcast_coalesced tensors (tensors.map Tensor.values) (some c) g =
      Except.ok tensors := by
  constructor
  · exact unflatten_flatten_of_shapes ts ts rfl
  · have hany : (tensors.any fun t' => t'.device = Device.cpu) = false := by
      rw [List.any_eq_false]
      intro t' ht'
      simp [hdev t' ht']
    rw [broadcast_coalesced, hany]
    simp only [Bool.false_eq_true, if_false, resolveComm]
    rw [show flatten (tensors.map Tensor.values) =
      (tensors.map Tensor.values).flatten from rfl]
    rw [unflatten_flatten_of_shapes _ _ rfl]
    rw [zipWith_set_self]

theorem coalesce_scatter_roundtrip_witness :
    unflatten (flatten [[(1 : ℚ), 2], [3]]) [[(1 : ℚ), 2], [3]] =
      [[(1 : ℚ), 2], [3]] ∧
    broadcast_coalesced [⟨Device.cuda 0, [(5 : ℚ), 6]⟩]
      ([⟨Device.cuda 0, [(5 : ℚ), 6]⟩].map Tensor.values)
      (some ⟨0, 2, "u"⟩) none =
      Except.ok [⟨Device.cuda 0, [(5 : ℚ), 6]⟩] :=
  coalesce_scatter_roundtrip [[(1 : ℚ), 2], [3]]
    [⟨Device.cuda 0, [(5 : ℚ), 6]⟩] ⟨0, 2, "u"⟩ none
    (by intro t ht; simp at ht; simp [ht])

/-- C2: with `average=false` the all-reduce result is the elementwise sum
of every member's values, identical on every rank (it depends only on the
ensemble, not on the calling tensor); with `average=true` each rank
divides the summed result locally by the communicator size — so each
element equals the sum over ranks divided by N — for both the
single-tensor and the coalesced-list variant. -/
theorem allreduce_sum_and_average
    (t : Tensor) (ranks : List (List ℚ)) (c : Communicator)
    (g : Option GlobalState) (m : Nat)
    (ts : List Tensor) (rks : List (List (List ℚ)))
    (hdev : t.device ≠ Device.cpu)
    (hne : ranks ≠ [])
    (hlen : ∀ v ∈ ranks, v.length = m)
    (hN : c.nranks = ranks.length)
    (hdevs : ∀ t' ∈ ts, t'.device ≠ Device.cpu)
    (hrne : rks ≠ [])
    (hshape : ∀ r ∈ rks,
      r.map List.length = ts.map (fun x => x.values.length))
    (hN2 : c.nranks = rks.length) :
    (∃ out, allreduce t ranks false (some c) g = Except.ok out ∧
      out.device = t.device ∧ out.values.length = m ∧
      ∀ j, j < m → out.values.getD j 0 =
        (ranks.map (fun v => v.getD j 0)).sum) ∧
    (∃ out, allreduce t ranks true (some c) g = Except.ok out ∧
      out.values.length = m ∧
      ∀ j, j < m → out.values.getD j 0 =
        (ranks.map (fun v => v.getD j 0)).sum / (ranks.length : ℚ)) ∧
    (∀ (t' : Tensor) (avg : Bool), t'.device ≠ Device.cpu →
      Except.map Tensor.values (allreduce t ranks avg (some c) g) =
      Except.map Tensor.values (allreduce t' ranks avg (some c) g)) ∧
    (∃ outs, allreduce_coalesced ts rks false (some c) g =
        Except.ok outs ∧
      outs.map Tensor.values = elemSum2 rks ∧
      ∀ k, k < ts.length →
        (outs.map Tensor.values).getD k [] =
          elemSum (rks.map (fun r => r.getD k []))) ∧
    (∃ outs, allreduce_coalesced ts rks true (some c) g =
        Except.ok outs ∧
      outs.map Tensor.values =
        (elemSum2 rks).map (List.map (fun x => x / (rks.length : ℚ))) ∧
      ∀ k, k < ts.length →
        (outs.map Tensor.values).getD k [] =
          (elemSum (rks.map (fun r => r.getD k []))).map
            (fun x => x / (rks.length : ℚ))) := by
  have hanyf : (ts.any fun t' => t'.device = Device.cpu) = false := by
    rw [List.any_eq_false]
    intro t' ht'
    simp [hdevs t' ht']
  have hsumlen : (elemSum ranks).length = m := elemSum_length m ranks hne hlen
  have hsum : elemSum (rks.map flatten) = (elemSum2 rks).flatten :=
    elemSum_map_flatten _ rks hrne hshape
  have hsh2 : (elemSum2 rks).map List.length =
      ts.map (fun x => x.values.length) :=
    elemSum2_map_length _ rks hrne hshape
  have hlen2 : (elemSum2 rks).length = ts.length := by
    have := congrArg List.length hsh2
    simpa using this
  have hshapes_eq : (elemSum2 rks).map List.length =
      (ts.map Tensor.values).map List.length := by
    rw [hsh2, List.map_map]; rfl
  have hunf : unflatten ((elemSum2 rks).flatten) (ts.map Tensor.values) =
      elemSum2 rks :=
    unflatten_flatten_of_shapes _ _ hshapes_eq
  have hklt : ∀ k, k < ts.length →
      k < (ts.map (fun x => x.values.length)).length := by
    intro k hk; simpa using hk
  refine ⟨?_, ?_, ?_, ?_, ?_⟩
  · refine ⟨{ t with values := elemSum ranks }, ?_, rfl, hsumlen, ?_⟩
    · simp [allreduce, hdev, resolveComm]
    · intro j hj
      exact elemSum_getD m ranks hne hlen j hj
  · refine ⟨{ t with values :=
      (elemSum ranks).map (fun x => x / (c.nranks : ℚ)) }, ?_, ?_, ?_⟩
    · simp [allreduce, hdev, resolveComm]
    · simp [hsumlen]
    · intro j hj
      rw [show ({ t with values :=
          (elemSum ranks).map (fun x => x / (c.nranks : ℚ)) } :
            Tensor).values =
        (elemSum ranks).map (fun x => x / (c.nranks : ℚ)) from rfl]
      rw [getD_map_of_lt _ (elemSum ranks) j 0 0 (hsumlen ▸ hj)]
      rw [elemSum_getD m ranks hne hlen j hj, hN]
  · intro t' avg hdev'
    cases avg <;> simp [allreduce, hdev, hdev', resolveComm, Except.map]
  · refine ⟨List.zipWith (fun t v => { t with values := v }) ts
      (elemSum2 rks), ?_, ?_, ?_⟩
    · have : allreduce_coalesced ts rks false (some c) g =
          Except.ok (List.zipWith (fun t v => { t with values := v }) ts
            (unflatten (elemSum (rks.map flatten)) (ts.map Tensor.values))) := by
        simp [allreduce_coalesced, hanyf, resolveComm]
      rw [this, hsum, hunf]
    · exact map_values_zipWith_set ts _ hlen2
    · intro k hk
      rw [map_values_zipWith_set ts _ hlen2]
      exact elemSum2_getD _ rks hrne hshape k (hklt k hk)
  · have hmaplen : ((elemSum2 rks).map
        (List.map (fun x => x / (c.nranks : ℚ)))).map List.length =
        (elemSum2 rks).map List.length := by
      rw [List.map_map]
      simp [Function.comp, List.length_map]
    have hunf2 : unflatten (((elemSum2 rks).map
          (List.map (fun x => x / (c.nranks : ℚ)))).flatten)
        (ts.map Tensor.values) =
        (elemSum2 rks).map (List.map (fun x => x / (c.nranks : ℚ))) :=
      unflatten_flatten_of_shapes _ _ (hmaplen.trans hshapes_eq)
    have hlen3 : ((elemSum2 rks).map
        (List.map (fun x => x / (c.nranks : ℚ)))).length = ts.length := by
      simpa using hlen2
    refine ⟨List.zipWith (fun t v => { t with values := v }) ts
      ((elemSum2 rks).map (List.map (fun x => x / (c.nranks : ℚ)))),
      ?_, ?_, ?_⟩
    · have : allreduce_coalesced ts rks true (some c) g =
          Except.ok (List.zipWith (fun t v => { t with values := v }) ts
            (unflatten ((elemSum (rks.map flatten)).map
              (fun x => x / (c.nranks : ℚ))) (ts.map Tensor.values))) := by
        simp [allreduce_coalesced, hanyf, resolveComm]
      rw [this, hsum, List.map_flatten, hunf2]
    · rw [map_values_zipWith_set ts _ hlen3, hN2]
    · intro k hk
      rw [map_values_zipWith_set ts _ hlen3]
      rw [getD_map_of_lt _ (elemSum2 rks) k [] [] (hlen2 ▸ hk)]
      rw [elemSum2_getD _ rks hrne hshape k (hklt k hk), hN2]

theorem allreduce_sum_and_average_witness :
    ∃ out, allreduce ⟨Device.cuda 0, [1, 2]⟩ [[1, 2], [3, 4]] false
        (some ⟨0, 2, "u"⟩) none = Except.ok out ∧
      out.device = Device.cuda 0 ∧ out.values.length = 2 ∧
      ∀ j, j < 2 → out.values.getD j 0 =
        (([[1, 2], [3, 4]] : List (List ℚ)).map
          (fun v => v.getD j 0)).sum :=
  (allreduce_sum_and_average ⟨Device.cuda 0, [1, 2]⟩ [[1, 2], [3, 4]]
    ⟨0, 2, "u"⟩ none 2 [⟨Device.cuda 0, [1, 2]⟩] [[[1, 2]], [[3, 4]]]
    (by decide) (by decide) (by decide) (by decide) (by decide) (by decide)
    (by decide) (by decide)).1

theorem reorder_params_maximal_runs_witness :
    ([⟨100, 0, 0, 10, false, 0⟩, ⟨100, 10, 10, 10, false, 0⟩] :
      List Param) ≠ [] ∧
    List.Chain' (fun a b => is_contiguous_param b a = true)
      [⟨100, 0, 0, 10, false, 0⟩, ⟨100, 10, 10, 10, false, 0⟩] :=
  (reorder_params_maximal_runs [⟨100, 0, 0, 10, false, 0⟩,
    ⟨100, 10, 10, 10, false, 0⟩, ⟨100, 30, 30, 5, false, 0⟩]).2.2.2.1
    [⟨100, 0, 0, 10, false, 0⟩, ⟨100, 10, 10, 10, false, 0⟩] (by decide)

theorem group_params_partition_witness :
    ((⟨1, 0, 0, 3, false, 0⟩ : Param).ptr,
      ([⟨1, 0, 0, 3, false, 0⟩, ⟨2, 0, 0, 4, false, 0⟩,
        ⟨1, 3, 3, 5, false, 0⟩] : List Param).filter
        (fun q => decide (q.ptr = (⟨1, 0, 0, 3, false, 0⟩ : Param).ptr))) ∈
      group_params_by_storage [⟨1, 0, 0, 3, false, 0⟩,
        ⟨2, 0, 0, 4, false, 0⟩, ⟨1, 3, 3, 5, false, 0⟩] ∧
    (⟨1, 0, 0, 3, false, 0⟩ : Param) ∈
      ([⟨1, 0, 0, 3, false, 0⟩, ⟨2, 0, 0, 4, false, 0⟩,
        ⟨1, 3, 3, 5, false, 0⟩] : List Param).filter
        (fun q => decide (q.ptr = (⟨1, 0, 0, 3, false, 0⟩ : Param).ptr)) :=
  (group_params_partition [⟨1, 0, 0, 3, false, 0⟩, ⟨2, 0, 0, 4, false, 0⟩,
    ⟨1, 3, 3, 5, false, 0⟩] []).2.2.2.1 ⟨1, 0, 0, 3, false, 0⟩ (by decide)

end Bagua

-- sanity examples (concrete executions of the embedding)
example :
    Bagua.reorder_runs
      [⟨100, 0, 0, 10, false, 0⟩, ⟨100, 10, 10, 10, false, 0⟩, ⟨100, 30, 30, 5, false, 0⟩] =
      [[⟨100, 0, 0, 10, false, 0⟩, ⟨100, 10, 10, 10, false, 0⟩], [⟨100, 30, 30, 5, false, 0⟩]] := by
  decide

example :
    Bagua.group_params_by_storage
      [⟨1, 0, 0, 3, false, 0⟩, ⟨2, 0, 0, 4, false, 0⟩, ⟨1, 3, 3, 5, false, 0⟩] =
      [(1, [⟨1, 0, 0, 3, false, 0⟩, ⟨1, 3, 3, 5, false, 0⟩]), (2, [⟨2, 0, 0, 4, false, 0⟩])] := by
  decide
